import Mathlib

/-!
Verification of the `digitize` operator
(`src/operator/tensor/digitize_op.h`, `src/operator/tensor/digitize_op.cc`).

The operator is embedded shallowly: tensors become flat `List`s together with
their shape (a `List Nat` of dimension sizes), machine integers become `Nat`/`Int`
with explicit two's-complement wrapping where the code casts, and the parallel
kernel launches become folds over `List.range n` (the per-index writes are
disjoint, so any sequential order models the parallel launch).

`std::lower_bound` / `std::upper_bound` are external library calls; they are
modelled by their C++ standard contract on partitioned ranges: the first
position at which the search predicate fails (`List.findIdx` of the negated
predicate, which returns the list length when no position qualifies).
-/

set_option maxHeartbeats 1000000

namespace Digitize

/-- Output dtype enumeration of `DigitizeParam::otype`
(`add_enum`: uint8, int32, int64, int8). -/
inductive OType where
  | uint8
  | int8
  | int32
  | int64
deriving DecidableEq

/-- Bit width of each output dtype. -/
def OType.bits : OType → Nat
  | .uint8 => 8
  | .int8 => 8
  | .int32 => 32
  | .int64 => 64

/-- Signedness of each output dtype. -/
def OType.signed : OType → Bool
  | .uint8 => false
  | .int8 => true
  | .int32 => true
  | .int64 => true

/-- mshadow type flag of each output dtype (kUint8 = 3, kInt32 = 4, kInt8 = 5,
kInt64 = 6). -/
def OType.flag : OType → Int
  | .uint8 => 3
  | .int32 => 4
  | .int8 => 5
  | .int64 => 6

/-- The `static_cast<OType>(index)` at the end of `ForwardKernel<cpu>::Map`:
two's-complement wrap of a non-negative machine integer into the output dtype. -/
def castOType (t : OType) (n : Nat) : Int :=
  let m := n % 2 ^ t.bits
  if t.signed = true ∧ 2 ^ (t.bits - 1) ≤ m then (m : Int) - 2 ^ t.bits else (m : Int)

/-- `DigitizeParam`: `right` (default false) and the output dtype
(default int32). -/
structure DigitizeParam where
  right : Bool := false
  otype : OType := OType.int32

/-- mxnet `shape_assign` for one dimension: 0 is the unknown placeholder. -/
def dim_assign (a b : Nat) : Option Nat :=
  if a = 0 then some b
  else if b = 0 ∨ a = b then some a
  else none

/-- mxnet `shape_assign`, used by `SHAPE_ASSIGN_CHECK`: an empty (rank-0) target
is overwritten, otherwise ranks must agree and dimensions merge pointwise. -/
def shape_assign (y x : List Nat) : Option (List Nat) :=
  if y.length = 0 then some x
  else if y.length ≠ x.length then (if x.length = 0 then some y else none)
  else (y.zip x).mapM (fun ab => dim_assign ab.1 ab.2)

/-- mxnet `type_assign`, used by `TYPE_ASSIGN_CHECK`: -1 is the undefined type. -/
def type_assign (y x : Int) : Option Int :=
  if y = -1 then some x
  else if y ≠ x ∧ x ≠ -1 then none
  else some y

/-- `DigitizeOpShape`: arity checks, defined-rank checks, rank equality,
equality of the leading `rank - 1` dimensions, then assigns the data shape to
the output slot. -/
def digitizeOpShape (in_attrs out_attrs : List (List Nat)) :
    Except String (List (List Nat)) :=
  if in_attrs.length ≠ 2 then Except.error "in_attrs size must be 2"
  else if out_attrs.length ≠ 1 then Except.error "out_attrs size must be 1"
  else
    let data_shape := in_attrs.getD 0 []
    let bin_shape := in_attrs.getD 1 []
    if ¬ 0 < data_shape.length then Except.error "Data shape undefined"
    else if ¬ 0 < bin_shape.length then Except.error "Bin shape undefined"
    else if bin_shape.length ≠ data_shape.length then
      Except.error "Bins tensor must have same number of dimensions than the input data"
    else if bin_shape.dropLast ≠ data_shape.take (bin_shape.length - 1) then
      Except.error "First N-1 dimensions of the input data and bins tensors should be the same"
    else
      match shape_assign (out_attrs.getD 0 []) data_shape with
      | some s => Except.ok [s]
      | none => Except.error "SHAPE_ASSIGN_CHECK failed"

/-- `DigitizeOpType`: reads the two input type slots (an absent slot is the
undefined type -1), requires both defined and equal, then either reports the
output type as still unknown (`otype = -1`, the `return false` path, flag
`false`) or assigns the configured `otype` to output slot 0 (flag `true`). -/
def digitizeOpType (otype : Int) (in_attrs out_attrs : List Int) :
    Except String (Bool × List Int) :=
  let data_type := in_attrs.getD 0 (-1)
  let bins_type := in_attrs.getD 1 (-1)
  if data_type = -1 then Except.error "Input data type undefined"
  else if bins_type = -1 then Except.error "Bins type undefined"
  else if data_type ≠ bins_type then Except.error "data type must equal bins type"
  else if otype = -1 then Except.ok (false, out_attrs)
  else
    match type_assign (out_attrs.getD 0 (-1)) otype with
    | some t => Except.ok (true, out_attrs.set 0 t)
    | none => Except.error "TYPE_ASSIGN_CHECK failed"

/-- `NNVM_REGISTER_OP(digitize).set_num_inputs(1)`. -/
def digitizeNumInputs : Nat := 1

/-- `NNVM_REGISTER_OP(digitize).set_num_outputs(1)`. -/
def digitizeNumOutputs : Nat := 1

/-- `FListInputNames` of the registration: a single name, "data". -/
def digitizeListInputNames : List String := ["data"]

/-- `FInplaceOption` of the registration: output 0 may alias input 0. -/
def digitizeInplaceOption : List (Nat × Nat) := [(0, 0)]

variable {α : Type*} [LinearOrder α] {β : Type*}

/-- `std::lower_bound(begin, end, v)`, by its contract on a partitioned range:
the first position whose element is not `< v` (the length if none). -/
def lowerBound (l : List α) (v : α) : Nat :=
  l.findIdx fun x => !decide (x < v)

/-- `std::upper_bound(begin, end, v)`, by its contract on a partitioned range:
the first position whose element satisfies `v <`  it (the length if none). -/
def upperBound (l : List α) (v : α) : Nat :=
  l.findIdx fun x => decide (v < x)

/-- `ForwardKernel<cpu>::Map` without the final cast: reads `in_data[i]`
(`d` models the junk value an out-of-bounds read would produce), finds the
batch via `i / batch_size`, restricts `bins` to that batch's segment of
`bins_length` edges, and runs the search selected by `right`. -/
def forwardKernelMap (in_data bins : List α) (d : α)
    (batch_size bins_length : Nat) (right : Bool) (i : Nat) : Nat :=
  let data := in_data.getD i d
  let batch_index := i / batch_size
  let seg := (bins.drop (bins_length * batch_index)).take bins_length
  if right then lowerBound seg data else upperBound seg data

/-- `CheckMonotonicKernel::Map` for one index: `true` when this index keeps the
shared `mono` flag intact (segment boundary, or strictly increasing pair),
`false` when it stores `false` into the flag. `d` models the junk value of an
out-of-bounds read. -/
def checkMonotonicMap (bins_length : Nat) (bins : List α) (d : α) (i : Nat) : Bool :=
  if (i + 1) % bins_length = 0 then true
  else if bins.getD i d ≥ bins.getD (i + 1) d then false else true

/-- The launch of `CheckMonotonicKernel` over `size` indices: the flag starts
`true` and ends `true` iff no index stored `false` (the writes are commutative
and idempotent, so the fold models the parallel launch). -/
def checkMonotonic (bins_length : Nat) (bins : List α) (d : α) (size : Nat) : Bool :=
  (List.range size).all (checkMonotonicMap bins_length bins d)

/-- A kernel launch writing `f i` into slot `i` of `out` for every
`i < n`, in index order (the writes are disjoint, so the order is irrelevant). -/
def launchN (f : Nat → β) (out : List β) (n : Nat) : List β :=
  (List.range n).foldl (fun o i => o.set i (f i)) out

/-- The launch of `ForwardKernel` over all `outputs[0].Size()` elements, with
distinct input and output buffers; `castF` is the `static_cast<OType>`. -/
def launchForward (in_data bins : List α) (d : α) (batch_size bins_length : Nat)
    (right : Bool) (castF : Nat → β) (out : List β) : List β :=
  launchN (fun i => castF (forwardKernelMap in_data bins d batch_size bins_length right i))
    out out.length

/-- The launch of `ForwardKernel` when the output buffer aliases the data
buffer: each step reads slot `i` of the single shared buffer and then
overwrites that same slot. -/
def launchForwardInplace (bins : List α) (d : α) (batch_size bins_length : Nat)
    (right : Bool) (castF : Nat → α) (buf : List α) : List α :=
  (List.range buf.length).foldl
    (fun b i => b.set i (castF (forwardKernelMap b bins d batch_size bins_length right i))) buf

/-- `DigitizeOpForward`: runs the monotonicity check over all of `bins`
(`bins_length` is the last dimension of the bins shape), aborts with the
`CHECK(mono)` message leaving `out` untouched on failure, and otherwise
launches the forward kernel (`batch_size` is the last dimension of the data
shape). The first component is the verdict, the second the output buffer
after the call. -/
def digitizeOpForward (right : Bool) (castF : Nat → β) (d : α)
    (data bins : List α) (dshape bshape : List Nat) (out : List β) :
    Except String Unit × List β :=
  let bins_length := bshape.getLastD 0
  if checkMonotonic bins_length bins d bins.length = true then
    (Except.ok (), launchForward data bins d (dshape.getLastD 0) bins_length right castF out)
  else
    (Except.error "Bins vector is not strictly monotonic and increasing", out)

/-- `DigitizeOpForward` executed with `outputs[0]` aliasing `inputs[0]`
(the registered in-place option): the single buffer `buf` serves as both. -/
def digitizeOpForwardInplace (right : Bool) (castF : Nat → α) (d : α)
    (buf bins : List α) (dshape bshape : List Nat) :
    Except String Unit × List α :=
  let bins_length := bshape.getLastD 0
  if checkMonotonic bins_length bins d bins.length = true then
    (Except.ok (), launchForwardInplace bins d (dshape.getLastD 0) bins_length right castF buf)
  else
    (Except.error "Bins vector is not strictly monotonic and increasing", buf)

/-! ### Helper lemmas about the binary searches -/

theorem lowerBound_le_length (l : List α) (v : α) : lowerBound l v ≤ l.length :=
  List.findIdx_le_length _

theorem upperBound_le_length (l : List α) (v : α) : upperBound l v ≤ l.length :=
  List.findIdx_le_length _

theorem lowerBound_eq_countP_of_sorted (v : α) :
    ∀ l : List α, l.Sorted (· < ·) →
      lowerBound l v = l.countP (fun x => decide (x < v)) := by
  intro l hl
  induction l with
  | nil => rfl
  | cons a l ih =>
    rw [List.sorted_cons] at hl
    rw [lowerBound, List.findIdx_cons, List.countP_cons]
    by_cases hav : a < v
    · have hpa : (!decide (a < v)) = false := by simp [hav]
      rw [hpa, cond_false, ← lowerBound, ih hl.2]
      simp [hav]
    · have hpa : (!decide (a < v)) = true := by simp [hav]
      rw [hpa, cond_true]
      have hz : l.countP (fun x => decide (x < v)) = 0 := by
        refine List.countP_eq_zero.mpr ?_
        intro b hb
        have hab : a < b := hl.1 b hb
        simp only [decide_eq_true_eq]
        intro hbv
        exact hav (lt_trans hab hbv)
      simp [hz, hav]

theorem upperBound_eq_countP_of_sorted (v : α) :
    ∀ l : List α, l.Sorted (· < ·) →
      upperBound l v = l.countP (fun x => decide (x ≤ v)) := by
  intro l hl
  induction l with
  | nil => rfl
  | cons a l ih =>
    rw [List.sorted_cons] at hl
    rw [upperBound, List.findIdx_cons, List.countP_cons]
    by_cases hva : v < a
    · have hpa : decide (v < a) = true := by simp [hva]
      rw [hpa, cond_true]
      have hz : l.countP (fun x => decide (x ≤ v)) = 0 := by
        refine List.countP_eq_zero.mpr ?_
        intro b hb
        have hab : a < b := hl.1 b hb
        simp only [decide_eq_true_eq]
        intro hbv
        exact absurd (lt_trans hva hab) (not_lt.mpr hbv)
      simp [hz, not_le.mpr hva]
    · have hpa : decide (v < a) = false := by simp [hva]
      rw [hpa, cond_false, ← upperBound, ih hl.2]
      simp [not_lt.mp hva]

theorem countP_lt_get_of_sorted (l : List α) (hs : l.Sorted (· < ·))
    (k : Nat) (hk : k < l.length) :
    l.countP (fun x => decide (x < l.get ⟨k, hk⟩)) = k := by
  have hsplit : l.take k ++ l.drop k = l := List.take_append_drop k l
  have htlen : (l.take k).length = k := by
    rw [List.length_take]; omega
  have h1' : (l.take k).countP (fun x => decide (x < l.get ⟨k, hk⟩)) = (l.take k).length := by
    refine List.countP_eq_length.mpr ?_
    intro a ha
    obtain ⟨i, hi, hget⟩ := List.mem_iff_getElem.mp ha
    have hik : i < k := htlen ▸ hi
    have hil : i < l.length := by omega
    have : (l.take k)[i] = l[i] := List.getElem_take ..
    rw [this] at hget
    subst hget
    have := List.Sorted.rel_get_of_lt hs (a := ⟨i, hil⟩) (b := ⟨k, hk⟩) hik
    simpa using this
  have h1 : (l.take k).countP (fun x => decide (x < l.get ⟨k, hk⟩)) = k := by
    rw [h1', htlen]
  have h2 : (l.drop k).countP (fun x => decide (x < l.get ⟨k, hk⟩)) = 0 := by
    refine List.countP_eq_zero.mpr ?_
    intro a ha
    obtain ⟨i, hi, hget⟩ := List.mem_iff_getElem.mp ha
    have hkil : k + i < l.length := by
      rw [List.length_drop] at hi; omega
    have : (l.drop k)[i] = l[k + i] := List.getElem_drop ..
    rw [this] at hget
    subst hget
    simp only [decide_eq_true_eq, not_lt]
    rcases Nat.eq_zero_or_pos i with hz | hp
    · subst hz; simp
    · have := List.Sorted.rel_get_of_lt hs (a := ⟨k, hk⟩) (b := ⟨k + i, hkil⟩) (by simp; omega)
      exact le_of_lt (by simpa using this)
  calc l.countP (fun x => decide (x < l.get ⟨k, hk⟩))
      = (l.take k ++ l.drop k).countP (fun x => decide (x < l.get ⟨k, hk⟩)) := by rw [hsplit]
    _ = k := by rw [List.countP_append, h1, h2]; omega

theorem countP_le_get_of_sorted (l : List α) (hs : l.Sorted (· < ·))
    (k : Nat) (hk : k < l.length) :
    l.countP (fun x => decide (x ≤ l.get ⟨k, hk⟩)) = k + 1 := by
  have hsplit : l.take (k + 1) ++ l.drop (k + 1) = l := List.take_append_drop (k + 1) l
  have htlen : (l.take (k + 1)).length = k + 1 := by
    rw [List.length_take]; omega
  have h1' : (l.take (k + 1)).countP (fun x => decide (x ≤ l.get ⟨k, hk⟩))
      = (l.take (k + 1)).length := by
    refine List.countP_eq_length.mpr ?_
    intro a ha
    obtain ⟨i, hi, hget⟩ := List.mem_iff_getElem.mp ha
    have hik : i < k + 1 := htlen ▸ hi
    have hil : i < l.length := by omega
    have : (l.take (k + 1))[i] = l[i] := List.getElem_take ..
    rw [this] at hget
    subst hget
    simp only [decide_eq_true_eq]
    rcases Nat.lt_or_ge i k with hlt | hge
    · exact le_of_lt (by simpa using List.Sorted.rel_get_of_lt hs (a := ⟨i, hil⟩) (b := ⟨k, hk⟩) hlt)
    · have : i = k := by omega
      subst this; simp
  have h1 : (l.take (k + 1)).countP (fun x => decide (x ≤ l.get ⟨k, hk⟩)) = k + 1 := by
    rw [h1', htlen]
  have h2 : (l.drop (k + 1)).countP (fun x => decide (x ≤ l.get ⟨k, hk⟩)) = 0 := by
    refine List.countP_eq_zero.mpr ?_
    intro a ha
    obtain ⟨i, hi, hget⟩ := List.mem_iff_getElem.mp ha
    have hkil : k + 1 + i < l.length := by
      rw [List.length_drop] at hi; omega
    have : (l.drop (k + 1))[i] = l[k + 1 + i] := List.getElem_drop ..
    rw [this] at hget
    subst hget
    simp only [decide_eq_true_eq, not_le]
    simpa using List.Sorted.rel_get_of_lt hs (a := ⟨k, hk⟩) (b := ⟨k + 1 + i, hkil⟩) (by simp; omega)
  calc l.countP (fun x => decide (x ≤ l.get ⟨k, hk⟩))
      = (l.take (k + 1) ++ l.drop (k + 1)).countP (fun x => decide (x ≤ l.get ⟨k, hk⟩)) := by
        rw [hsplit]
    _ = k + 1 := by rw [List.countP_append, h1, h2]

/-! ### Helper lemmas about kernel launches -/

theorem foldl_set_length (f : Nat → β) :
    ∀ (is : List Nat) (out : List β),
      (is.foldl (fun o i => o.set i (f i)) out).length = out.length := by
  intro is
  induction is with
  | nil => intro out; rfl
  | cons i is ih => intro out; rw [List.foldl_cons, ih, List.length_set]

theorem foldl_set_getD_not_mem (f : Nat → β) (j : Nat) (d : β) :
    ∀ (is : List Nat) (out : List β), j ∉ is →
      (is.foldl (fun o i => o.set i (f i)) out).getD j d = out.getD j d := by
  intro is
  induction is with
  | nil => intro out _; rfl
  | cons i is ih =>
    intro out hj
    rw [List.mem_cons, not_or] at hj
    rw [List.foldl_cons, ih _ hj.2]
    simp [List.getD_eq_getElem?_getD, List.getElem?_set_ne (Ne.symm hj.1)]

theorem launchN_length (f : Nat → β) (out : List β) (n : Nat) :
    (launchN f out n).length = out.length :=
  foldl_set_length f _ out

theorem launchN_succ (f : Nat → β) (out : List β) (n : Nat) :
    launchN f out (n + 1) = (launchN f out n).set n (f n) := by
  rw [launchN, List.range_succ, List.foldl_append, List.foldl_cons, List.foldl_nil, launchN]

theorem launchN_getD_ge (f : Nat → β) (out : List β) (n j : Nat) (d : β) (h : n ≤ j) :
    (launchN f out n).getD j d = out.getD j d := by
  refine foldl_set_getD_not_mem f j d _ out ?_
  simp only [List.mem_range]
  omega

theorem launchN_getD_lt (f : Nat → β) (out : List β) :
    ∀ n i, i < n → i < out.length → ∀ d, (launchN f out n).getD i d = f i := by
  intro n
  induction n with
  | zero => intro i hi; omega
  | succ n ih =>
    intro i hi hlen d
    rw [launchN_succ]
    rcases Nat.lt_or_ge i n with hlt | hge
    · rw [show ((launchN f out n).set n (f n)).getD i d = (launchN f out n).getD i d by
        simp [List.getD_eq_getElem?_getD, List.getElem?_set_ne (by omega : n ≠ i)]]
      exact ih i hlt hlen d
    · have hin : i = n := by omega
      subst hin
      have hlt' : i < (launchN f out i).length := by rw [launchN_length]; exact hlen
      simp [List.getD_eq_getElem?_getD, List.getElem?_set_eq_of_lt (f i) hlt']

theorem forwardKernelMap_getD_congr (in1 in2 bins : List α) (d : α) (bs L : Nat)
    (right : Bool) (i : Nat) (h : in1.getD i d = in2.getD i d) :
    forwardKernelMap in1 bins d bs L right i = forwardKernelMap in2 bins d bs L right i := by
  simp only [forwardKernelMap, h]

theorem launchForwardInplace_eq (bins : List α) (d : α) (bs L : Nat) (right : Bool)
    (castF : Nat → α) (buf : List α) :
    ∀ n, (List.range n).foldl
        (fun b i => b.set i (castF (forwardKernelMap b bins d bs L right i))) buf
      = launchN (fun i => castF (forwardKernelMap buf bins d bs L right i)) buf n := by
  intro n
  induction n with
  | zero => rfl
  | succ n ih =>
    rw [List.range_succ, List.foldl_append, List.foldl_cons, List.foldl_nil, ih, launchN_succ]
    have hread : (launchN (fun i => castF (forwardKernelMap buf bins d bs L right i)) buf n).getD n d
        = buf.getD n d :=
      launchN_getD_ge _ buf n n d (le_refl n)
    congr 1
    exact congrArg castF (forwardKernelMap_getD_congr _ _ bins d bs L right n hread)

theorem launchN_ext (f : Nat → β) (o1 o2 : List β) (n : Nat)
    (h1 : o1.length = n) (h2 : o2.length = n) :
    launchN f o1 n = launchN f o2 n := by
  apply List.ext_getElem
  · rw [launchN_length, launchN_length, h1, h2]
  · intro i hi1 hi2
    have hin : i < n := by rw [launchN_length, h1] at hi1; exact hi1
    rw [← List.getD_eq_getElem (launchN f o1 n) (f i) hi1,
      ← List.getD_eq_getElem (launchN f o2 n) (f i) hi2,
      launchN_getD_lt f o1 n i hin (by omega) (f i),
      launchN_getD_lt f o2 n i hin (by omega) (f i)]

/-! ### Helper lemmas about the monotonicity check -/

theorem checkMonotonic_eq_true_iff (L : Nat) (bins : List α) (d : α) (n : Nat) :
    checkMonotonic L bins d n = true ↔
      ∀ i, i < n → (i + 1) % L ≠ 0 → bins.getD i d < bins.getD (i + 1) d := by
  rw [checkMonotonic, List.all_eq_true]
  constructor
  · intro h i hi hb
    have := h i (List.mem_range.mpr hi)
    rw [checkMonotonicMap, if_neg hb] at this
    by_contra hcon
    rw [if_pos (not_lt.mp hcon)] at this
    exact Bool.false_ne_true this
  · intro h i hi
    rw [List.mem_range] at hi
    rw [checkMonotonicMap]
    by_cases hb : (i + 1) % L = 0
    · rw [if_pos hb]
    · rw [if_neg hb, if_neg (not_le.mpr (h i hi hb))]

theorem checkMonotonic_of_sorted (B L : Nat) (bins : List α) (d : α)
    (hlen : bins.length = B * L)
    (hsort : ∀ b, b < B → List.Sorted (· < ·) ((bins.drop (L * b)).take L)) :
    checkMonotonic L bins d bins.length = true := by
  rw [checkMonotonic_eq_true_iff]
  intro i hi hb
  have hL : 0 < L := by
    rcases Nat.eq_zero_or_pos L with h0 | h
    · subst h0; rw [Nat.mul_zero] at hlen; omega
    · exact h
  set b := i / L with hbdef
  set r := i % L with hrdef
  have hdm : L * b + r = i := Nat.div_add_mod i L
  have hrL : r < L := Nat.mod_lt i hL
  have hmul1 : L * (b + 1) = L * b + L := by ring
  have hcomm : L * B = B * L := by ring
  have hbB : b < B := by
    by_contra hc
    push_neg at hc
    have : L * B ≤ L * b := Nat.mul_le_mul_left L hc
    omega
  have hble : L * (b + 1) ≤ L * B := Nat.mul_le_mul_left L (by omega : b + 1 ≤ B)
  have hr1 : r + 1 < L := by
    rcases Nat.lt_or_ge (r + 1) L with h | h; · exact h
    exfalso
    have hrL1 : r + 1 = L := by omega
    have hiL : i + 1 = L * (b + 1) := by omega
    have hmod : L * (b + 1) % L = 0 := Nat.mul_mod_right L (b + 1)
    rw [hiL] at hb
    exact hb hmod
  have hi1 : i + 1 < bins.length := by omega
  have hseglen : ((bins.drop (L * b)).take L).length = L := by
    rw [List.length_take, List.length_drop]
    omega
  have hseg := hsort b hbB
  have hr' : r < ((bins.drop (L * b)).take L).length := by omega
  have hr1' : r + 1 < ((bins.drop (L * b)).take L).length := by omega
  have hrel := List.Sorted.rel_get_of_lt hseg (a := ⟨r, hr'⟩) (b := ⟨r + 1, hr1'⟩)
    (by simp)
  have hdi : L * b + r < bins.length := by omega
  have hdi1 : L * b + (r + 1) < bins.length := by omega
  have hgr : ((bins.drop (L * b)).take L).get ⟨r, hr'⟩ = bins[L * b + r] := by
    rw [List.get_eq_getElem]
    rw [List.getElem_take, List.getElem_drop]
  have hgr1 : ((bins.drop (L * b)).take L).get ⟨r + 1, hr1'⟩ = bins[L * b + (r + 1)] := by
    rw [List.get_eq_getElem]
    rw [List.getElem_take, List.getElem_drop]
  rw [hgr, hgr1] at hrel
  rw [List.getD_eq_getElem bins d (by omega : i < bins.length),
    List.getD_eq_getElem bins d hi1]
  have e1 : L * b + r = i := hdm
  have e2 : L * b + (r + 1) = i + 1 := by omega
  simp only [e1, e2] at hrel
  exact hrel

/-! ### Claim theorems -/

/-- C3: for the single-batch input data = [2.0] with bins = [1.0, 2.0, 3.0]
(shapes (1,) and (3,)), the forward computation succeeds and produces
output = [2] when right = false and output = [1] when right = true. -/
theorem forward_boundary_example :
    digitizeOpForward false (castOType OType.int32) (0 : ℚ) [2] [1, 2, 3] [1] [3] [0]
        = (Except.ok (), [2]) ∧
    digitizeOpForward true (castOType OType.int32) (0 : ℚ) [2] [1, 2, 3] [1] [3] [0]
        = (Except.ok (), [1]) :=
  ⟨rfl, rfl⟩

/-- C7: the bucket index computed by the forward kernel, before the cast to the
output element type, always lies in the inclusive range [0, bins_length]. -/
theorem bucket_index_le_bins_length (in_data bins : List α) (d : α)
    (batch_size bins_length : Nat) (right : Bool) (i : Nat) :
    0 ≤ forwardKernelMap in_data bins d batch_size bins_length right i ∧
    forwardKernelMap in_data bins d batch_size bins_length right i ≤ bins_length := by
  refine ⟨Nat.zero_le _, ?_⟩
  have hseg : ((bins.drop (bins_length * (i / batch_size))).take bins_length).length
      ≤ bins_length := by
    rw [List.length_take]; omega
  simp only [forwardKernelMap]
  split
  · exact le_trans (lowerBound_le_length _ _) hseg
  · exact le_trans (upperBound_le_length _ _) hseg

/-- C6 counterexample: for the data value 2.0 equal to bin edge 2.0 (edge
position 1 of the strictly increasing segment [1.0, 2.0, 3.0]), the claim's
directions would require bucket index 2 for right = true (bin to the edge's
right) and bucket index 1 for right = false (bin to the edge's left); the
kernel instead computes 1 and 2 respectively. -/
theorem tie_break_counterexample :
    ¬ (forwardKernelMap [(2 : ℚ)] [1, 2, 3] 0 1 3 true 0 = 2 ∧
       forwardKernelMap [(2 : ℚ)] [1, 2, 3] 0 1 3 false 0 = 1) := by
  decide

/-- C6 amended: for a data value exactly equal to bin edge k of its batch's
strictly increasing segment, the kernel with right = true computes bucket
index k, placing the value into the bin to that edge's LEFT (the edge is a
right-inclusive boundary), and the kernel with right = false computes k + 1,
placing the value into the bin to that edge's RIGHT (the edge is a
left-inclusive boundary). -/
theorem tie_break_amended (seg : List α) (k : Nat) (hk : k < seg.length)
    (hs : List.Sorted (· < ·) seg) :
    forwardKernelMap [seg.get ⟨k, hk⟩] seg (seg.get ⟨k, hk⟩) 1 seg.length true 0 = k ∧
    forwardKernelMap [seg.get ⟨k, hk⟩] seg (seg.get ⟨k, hk⟩) 1 seg.length false 0 = k + 1 := by
  constructor
  · simp only [forwardKernelMap, Nat.zero_div, Nat.mul_zero, List.drop_zero, List.take_length,
      List.getD_cons_zero, if_pos rfl]
    rw [lowerBound_eq_countP_of_sorted _ _ hs, countP_lt_get_of_sorted seg hs k hk]
    simp
  · simp only [forwardKernelMap, Nat.zero_div, Nat.mul_zero, List.drop_zero, List.take_length,
      List.getD_cons_zero]
    rw [if_neg (by simp : ¬ false = true)]
    rw [upperBound_eq_countP_of_sorted _ _ hs, countP_le_get_of_sorted seg hs k hk]

/-- C6 amended witness: the amended tie-break at the concrete boundary
scenario data value = edge 2.0, segment [1.0, 2.0, 3.0], edge position 1. -/
theorem tie_break_amended_witness :
    forwardKernelMap [(2 : ℚ)] [1, 2, 3] 2 1 3 true 0 = 1 ∧
    forwardKernelMap [(2 : ℚ)] [1, 2, 3] 2 1 3 false 0 = 2 :=
  tie_break_amended [(1 : ℚ), 2, 3] 1 (by decide) (by decide)

/-- C2: the forward call fails with the monotonicity CHECK message exactly when
some batch's bin-edge segment contains an adjacent pair at positions i, i + 1
with i + 1 not a segment boundary and bins[i] >= bins[i+1]; on such a failure
the call aborts before the bucketize kernel launch, returning the output
buffer untouched. -/
theorem forward_validation_error_iff (right : Bool) (castF : Nat → β) (d : α)
    (data bins : List α) (dshape bshape : List Nat) (out : List β) (B : Nat)
    (hlen : bins.length = B * bshape.getLastD 0) :
    ((digitizeOpForward right castF d data bins dshape bshape out).1
        = Except.error "Bins vector is not strictly monotonic and increasing" ↔
      ∃ i, i + 1 < bins.length ∧ (i + 1) % bshape.getLastD 0 ≠ 0 ∧
        bins.getD (i + 1) d ≤ bins.getD i d) ∧
    ((digitizeOpForward right castF d data bins dshape bshape out).1
        = Except.error "Bins vector is not strictly monotonic and increasing" →
      (digitizeOpForward right castF d data bins dshape bshape out).2 = out) := by
  set L := bshape.getLastD 0 with hLdef
  by_cases hmono : checkMonotonic L bins d bins.length = true
  · have hunfold : digitizeOpForward right castF d data bins dshape bshape out
        = (Except.ok (), launchForward data bins d (dshape.getLastD 0) L right castF out) := by
      simp only [digitizeOpForward]
      rw [if_pos hmono]
    rw [hunfold]
    constructor
    · simp only []
      constructor
      · intro h; exact absurd h (by simp)
      · rintro ⟨i, hi1, hbnd, hle⟩
        exfalso
        have hlt := (checkMonotonic_eq_true_iff L bins d bins.length).mp hmono i
          (by omega) hbnd
        exact absurd hle (not_le.mpr hlt)
    · intro h; exact absurd h (by simp)
  · have hunfold : digitizeOpForward right castF d data bins dshape bshape out
        = (Except.error "Bins vector is not strictly monotonic and increasing", out) := by
      simp only [digitizeOpForward]
      rw [if_neg hmono]
    rw [hunfold]
    refine ⟨⟨fun _ => ?_, fun _ => rfl⟩, fun _ => rfl⟩
    have hnot := hmono
    rw [checkMonotonic_eq_true_iff] at hnot
    push_neg at hnot
    obtain ⟨i, hi, hbnd, hnlt⟩ := hnot
    refine ⟨i, ?_, hbnd, hnlt⟩
    have hmod : (B * L) % L = 0 := Nat.mul_mod_left B L
    rcases Nat.lt_or_ge (i + 1) bins.length with h | h
    · exact h
    · exfalso
      have : i + 1 = B * L := by omega
      rw [this] at hbnd
      exact hbnd hmod

/-- C4: with the standard arity-2 input list and an initially unknown output
slot, the shape rule succeeds exactly when both shapes have positive rank,
equal rank, and elementwise-equal leading rank-1 dimensions, and then assigns
the output shape equal to data's shape element for element; in every other
case it fails. -/
theorem shape_rule_spec (ds bs : List Nat) :
    (digitizeOpShape [ds, bs] [[]] = Except.ok [ds] ↔
      0 < ds.length ∧ 0 < bs.length ∧ bs.length = ds.length ∧
        bs.dropLast = ds.take (bs.length - 1)) ∧
    (∀ r, digitizeOpShape [ds, bs] [[]] = Except.ok r → r = [ds]) ∧
    (¬ (0 < ds.length ∧ 0 < bs.length ∧ bs.length = ds.length ∧
        bs.dropLast = ds.take (bs.length - 1)) →
      ∃ msg, digitizeOpShape [ds, bs] [[]] = Except.error msg) := by
  have key : digitizeOpShape [ds, bs] [[]] =
      if ¬ 0 < ds.length then Except.error "Data shape undefined"
      else if ¬ 0 < bs.length then Except.error "Bin shape undefined"
      else if bs.length ≠ ds.length then
        Except.error "Bins tensor must have same number of dimensions than the input data"
      else if bs.dropLast ≠ ds.take (bs.length - 1) then
        Except.error "First N-1 dimensions of the input data and bins tensors should be the same"
      else Except.ok [ds] := rfl
  by_cases h1 : 0 < ds.length
  · by_cases h2 : 0 < bs.length
    · by_cases h3 : bs.length = ds.length
      · by_cases h4 : bs.dropLast = ds.take (bs.length - 1)
        · have e : digitizeOpShape [ds, bs] [[]] = Except.ok [ds] := by
            rw [key]; simp [h1, h2, h3, h4]
          rw [e]
          refine ⟨by simp [h1, h2, h3, h4], ?_, fun hc => absurd ⟨h1, h2, h3, h4⟩ hc⟩
          intro r hr
          exact (Except.ok.inj hr).symm
        · have e : digitizeOpShape [ds, bs] [[]] = Except.error
              "First N-1 dimensions of the input data and bins tensors should be the same" := by
            rw [key, if_neg (not_not_intro h1), if_neg (not_not_intro h2),
              if_neg (not_not_intro h3), if_pos h4]
          rw [e]
          exact ⟨⟨fun h => absurd h (by simp), fun hc => absurd hc.2.2.2 h4⟩,
            fun r hr => absurd hr (by simp), fun _ => ⟨_, rfl⟩⟩
      · have e : digitizeOpShape [ds, bs] [[]] = Except.error
            "Bins tensor must have same number of dimensions than the input data" := by
          rw [key]; simp [h1, h2, h3]
        rw [e]
        exact ⟨⟨fun h => absurd h (by simp), fun hc => absurd hc.2.2.1 h3⟩,
          fun r hr => absurd hr (by simp), fun _ => ⟨_, rfl⟩⟩
    · have e : digitizeOpShape [ds, bs] [[]] = Except.error "Bin shape undefined" := by
        rw [key]; simp [h1, h2]
      rw [e]
      exact ⟨⟨fun h => absurd h (by simp), fun hc => absurd hc.2.1 h2⟩,
        fun r hr => absurd hr (by simp), fun _ => ⟨_, rfl⟩⟩
  · have e : digitizeOpShape [ds, bs] [[]] = Except.error "Data shape undefined" := by
      rw [key]; simp [h1]
    rw [e]
    exact ⟨⟨fun h => absurd h (by simp), fun hc => absurd hc.1 h1⟩,
      fun r hr => absurd hr (by simp), fun _ => ⟨_, rfl⟩⟩

/-- C4 witness: the shape rule at data shape (4,5), bins shape (4,6), with an
unknown output slot. -/
theorem shape_rule_spec_witness :
    (digitizeOpShape [[4, 5], [4, 6]] [[]] = Except.ok [[4, 5]] ↔
      0 < [4, 5].length ∧ 0 < [4, 6].length ∧ [4, 6].length = [4, 5].length ∧
        [4, 6].dropLast = [4, 5].take ([4, 6].length - 1)) ∧
    (∀ r, digitizeOpShape [[4, 5], [4, 6]] [[]] = Except.ok r → r = [[4, 5]]) ∧
    (¬ (0 < [4, 5].length ∧ 0 < [4, 6].length ∧ [4, 6].length = [4, 5].length ∧
        [4, 6].dropLast = [4, 5].take ([4, 6].length - 1)) →
      ∃ msg, digitizeOpShape [[4, 5], [4, 6]] [[]] = Except.error msg) :=
  shape_rule_spec [4, 5] [4, 6]

/-- C5: with the standard arity-2 input type list, an initially unknown output
slot, and a configured otype (never the undefined flag -1 after parameter
parsing), the type rule succeeds exactly when both input types are defined and
equal, and then assigns the output type slot the configured otype, independent
of the shared input type; in every other case it fails. -/
theorem type_rule_spec (dt bt ot : Int) (hot : ot ≠ -1) :
    (digitizeOpType ot [dt, bt] [-1] = Except.ok (true, [ot]) ↔
      dt ≠ -1 ∧ bt ≠ -1 ∧ dt = bt) ∧
    (∀ flag r, digitizeOpType ot [dt, bt] [-1] = Except.ok (flag, r) →
      flag = true ∧ r = [ot]) ∧
    (¬ (dt ≠ -1 ∧ bt ≠ -1 ∧ dt = bt) →
      ∃ msg, digitizeOpType ot [dt, bt] [-1] = Except.error msg) := by
  have key : digitizeOpType ot [dt, bt] [-1] =
      if dt = -1 then Except.error "Input data type undefined"
      else if bt = -1 then Except.error "Bins type undefined"
      else if dt ≠ bt then Except.error "data type must equal bins type"
      else if ot = -1 then Except.ok (false, [-1])
      else Except.ok (true, [ot]) := rfl
  by_cases h1 : dt = -1
  · have e : digitizeOpType ot [dt, bt] [-1] = Except.error "Input data type undefined" := by
      rw [key]; simp [h1]
    rw [e]
    exact ⟨by simp [h1], fun flag r hr => absurd hr (by simp), fun _ => ⟨_, rfl⟩⟩
  · by_cases h2 : bt = -1
    · have e : digitizeOpType ot [dt, bt] [-1] = Except.error "Bins type undefined" := by
        rw [key]; simp [h1, h2]
      rw [e]
      exact ⟨by simp [h2], fun flag r hr => absurd hr (by simp), fun _ => ⟨_, rfl⟩⟩
    · by_cases h3 : dt = bt
      · have e : digitizeOpType ot [dt, bt] [-1] = Except.ok (true, [ot]) := by
          rw [key]; simp [h1, h2, h3, hot]
        rw [e]
        refine ⟨by simp [h1, h2, h3], ?_, fun hc => absurd ⟨h1, h2, h3⟩ hc⟩
        intro flag r hr
        have := Except.ok.inj hr
        exact ⟨(congrArg Prod.fst this).symm, (congrArg Prod.snd this).symm⟩
      · have e : digitizeOpType ot [dt, bt] [-1] =
            Except.error "data type must equal bins type" := by
          rw [key]; simp [h1, h2, h3]
        rw [e]
        exact ⟨by simp [h3], fun flag r hr => absurd hr (by simp), fun _ => ⟨_, rfl⟩⟩

/-- C5 witness: the type rule at data type 0 (float32), bins type 0, configured
otype flag 4 (int32). -/
theorem type_rule_spec_witness :
    (digitizeOpType 4 [0, 0] [-1] = Except.ok (true, [4]) ↔
      (0 : Int) ≠ -1 ∧ (0 : Int) ≠ -1 ∧ (0 : Int) = 0) ∧
    (∀ flag r, digitizeOpType 4 [0, 0] [-1] = Except.ok (flag, r) →
      flag = true ∧ r = [4]) ∧
    (¬ ((0 : Int) ≠ -1 ∧ (0 : Int) ≠ -1 ∧ (0 : Int) = 0) →
      ∃ msg, digitizeOpType 4 [0, 0] [-1] = Except.error msg) :=
  type_rule_spec 0 0 4 (by decide)

/-- C10: the operator registration declares exactly one input, named "data",
while the shape callback asserts exactly two input slots and one output slot —
so shape inference invoked at the registered single-input arity always fails
its arity assertion — and the type callback reads a second input-type slot,
so it can only succeed when two input-type entries are present. -/
theorem registration_arity_mismatch :
    digitizeNumInputs = 1 ∧ digitizeListInputNames = ["data"] ∧
    (∀ ishapes oshapes : List (List Nat), ishapes.length = digitizeNumInputs →
      ∃ msg, digitizeOpShape ishapes oshapes = Except.error msg) ∧
    (∀ (ishapes oshapes : List (List Nat)) (r : List (List Nat)),
      digitizeOpShape ishapes oshapes = Except.ok r →
      ishapes.length = 2 ∧ oshapes.length = 1) ∧
    (∀ (ot : Int) (its oits : List Int) (r : List Int),
      digitizeOpType ot its oits = Except.ok (true, r) → 2 ≤ its.length) := by
  refine ⟨rfl, rfl, ?_, ?_, ?_⟩
  · intro ishapes oshapes h
    rw [digitizeNumInputs] at h
    have h2 : ishapes.length ≠ 2 := by omega
    exact ⟨"in_attrs size must be 2", by simp [digitizeOpShape, h2]⟩
  · intro ishapes oshapes r hok
    by_cases hA : ishapes.length = 2
    · by_cases hB : oshapes.length = 1
      · exact ⟨hA, hB⟩
      · exfalso; revert hok; simp [digitizeOpShape, hA, hB]
    · exfalso; revert hok; simp [digitizeOpShape, hA]
  · intro ot its oits r hok
    by_cases hl : 2 ≤ its.length
    · exact hl
    · exfalso
      have hbt : its[1]?.getD (-1) = -1 := by
        rw [← List.getD_eq_getElem?_getD]
        exact List.getD_eq_default _ _ (by omega)
      revert hok
      by_cases h1 : its[0]?.getD (-1) = -1
      · simp [digitizeOpType, List.getD_eq_getElem?_getD, h1]
      · simp [digitizeOpType, List.getD_eq_getElem?_getD, h1, hbt]

/-- C10 witness: with a single input shape (the registered arity), the shape
callback fails. -/
theorem registration_arity_mismatch_witness :
    ∃ msg, digitizeOpShape [[3]] [[]] = Except.error msg :=
  registration_arity_mismatch.2.2.1 [[3]] [[]] rfl

/-- C9: under the launch conditions — the flat sizes of bins and data are the
batch count times the respective last dimension — the kernels' accesses and
integer divisions are total: for every launched index of CheckMonotonicKernel
the modulo divisor is positive and, off segment boundaries, the read of
bins[i+1] is in bounds, so the kernel's verdict never depends on the junk
value an out-of-bounds read would return; and for every launched index of
ForwardKernel the division's divisor is positive and the read of in_data[i] is
in bounds, so the kernel's result never depends on the junk value either. -/
theorem kernel_access_safety (B L bs : Nat) (bins data : List α)
    (hbins : bins.length = B * L) (hdata : data.length = B * bs) :
    (∀ i, i < bins.length → 0 < L ∧ ((i + 1) % L ≠ 0 → i + 1 < bins.length)) ∧
    (∀ i, i < bins.length → ∀ d d',
      checkMonotonicMap L bins d i = checkMonotonicMap L bins d' i) ∧
    (∀ i, i < data.length → 0 < bs) ∧
    (∀ i, i < data.length → ∀ (right : Bool) d d',
      forwardKernelMap data bins d bs L right i
        = forwardKernelMap data bins d' bs L right i) := by
  have hL : ∀ i, i < bins.length → 0 < L := by
    intro i hi
    rcases Nat.eq_zero_or_pos L with h0 | h
    · subst h0; rw [Nat.mul_zero] at hbins; omega
    · exact h
  have hbounds : ∀ i, i < bins.length → (i + 1) % L ≠ 0 → i + 1 < bins.length := by
    intro i hi hbnd
    have hmod : (B * L) % L = 0 := Nat.mul_mod_left B L
    rcases Nat.lt_or_ge (i + 1) bins.length with h | h
    · exact h
    · exfalso
      have he : i + 1 = B * L := by omega
      rw [he] at hbnd
      exact hbnd hmod
  refine ⟨fun i hi => ⟨hL i hi, hbounds i hi⟩, ?_, ?_, ?_⟩
  · intro i hi d d'
    rw [checkMonotonicMap, checkMonotonicMap]
    by_cases hbnd : (i + 1) % L = 0
    · rw [if_pos hbnd, if_pos hbnd]
    · have hi1 : i + 1 < bins.length := hbounds i hi hbnd
      rw [if_neg hbnd, if_neg hbnd,
        List.getD_eq_getElem bins d (by omega : i < bins.length),
        List.getD_eq_getElem bins d hi1,
        List.getD_eq_getElem bins d' (by omega : i < bins.length),
        List.getD_eq_getElem bins d' hi1]
  · intro i hi
    rcases Nat.eq_zero_or_pos bs with h0 | h
    · subst h0; rw [Nat.mul_zero] at hdata; omega
    · exact h
  · intro i hi right d d'
    simp only [forwardKernelMap]
    rw [List.getD_eq_getElem data d hi, List.getD_eq_getElem data d' hi]

/-- C9 witness: the kernel access-safety facts at the concrete single-batch
input bins = [1.0, 2.0, 3.0], data = [2.0]. -/
theorem kernel_access_safety_witness :
    (∀ i, i < ([(1 : ℚ), 2, 3] : List ℚ).length →
      0 < 3 ∧ ((i + 1) % 3 ≠ 0 → i + 1 < ([(1 : ℚ), 2, 3] : List ℚ).length)) ∧
    (∀ i, i < ([(1 : ℚ), 2, 3] : List ℚ).length → ∀ d d',
      checkMonotonicMap 3 [(1 : ℚ), 2, 3] d i = checkMonotonicMap 3 [(1 : ℚ), 2, 3] d' i) ∧
    (∀ i, i < ([(2 : ℚ)] : List ℚ).length → 0 < 1) ∧
    (∀ i, i < ([(2 : ℚ)] : List ℚ).length → ∀ (right : Bool) d d',
      forwardKernelMap [(2 : ℚ)] [(1 : ℚ), 2, 3] d 1 3 right i
        = forwardKernelMap [(2 : ℚ)] [(1 : ℚ), 2, 3] d' 1 3 right i) :=
  kernel_access_safety 1 3 1 [(1 : ℚ), 2, 3] [(2 : ℚ)] rfl rfl

/-- C8: with monotonic bins, executing the forward computation with the output
buffer aliasing the data buffer yields exactly the same verdict and the same
output values as executing it with any distinct output buffer of the same
length — each element's computation reads only data[i] (before writing slot i)
and the bins buffer. -/
theorem forward_inplace_aliasing (right : Bool) (castF : Nat → α) (d : α)
    (buf bins : List α) (dshape bshape : List Nat) (out : List α)
    (hmono : checkMonotonic (bshape.getLastD 0) bins d bins.length = true)
    (hlen : out.length = buf.length) :
    digitizeOpForwardInplace right castF d buf bins dshape bshape
      = digitizeOpForward right castF d buf bins dshape bshape out := by
  simp only [digitizeOpForwardInplace, digitizeOpForward]
  rw [if_pos hmono, if_pos hmono]
  refine congrArg (Prod.mk (Except.ok ())) ?_
  rw [launchForwardInplace,
    launchForwardInplace_eq bins d (dshape.getLastD 0) (bshape.getLastD 0) right castF buf
      buf.length,
    launchForward, hlen]
  exact launchN_ext _ buf out buf.length rfl hlen

/-- C8 witness: in-place execution on the buffer [0.5, 2.5] against bins
[1.0, 2.0, 3.0] per batch row coincides with execution into the distinct
output buffer [9.0, 9.0]. -/
theorem forward_inplace_aliasing_witness :
    digitizeOpForwardInplace true (fun n => (n : ℚ)) 0
        ([0.5, 2.5] : List ℚ) ([1, 2, 3, 10, 20, 30] : List ℚ) [2, 1] [2, 3]
      = digitizeOpForward true (fun n => (n : ℚ)) 0
        ([0.5, 2.5] : List ℚ) ([1, 2, 3, 10, 20, 30] : List ℚ) [2, 1] [2, 3] [9, 9] :=
  forward_inplace_aliasing true (fun n => (n : ℚ)) 0 [0.5, 2.5] [1, 2, 3, 10, 20, 30]
    [2, 1] [2, 3] [9, 9] (by decide) (by decide)

/-- C1: for a well-formed input whose per-batch bin-edge segments are all
strictly increasing, the forward call succeeds, and at every linear output
index it writes the count of the bin edges of that element's batch segment
that are strictly less than the data value when right = true, and the count of
those less than or equal to it when right = false, cast to the configured
output element type. -/
theorem forward_writes_bucket_counts (right : Bool) (ot : OType) (d : α)
    (data bins : List α) (dshape bshape : List Nat) (out : List Int) (B : Nat)
    (hdata : data.length = B * dshape.getLastD 0)
    (hbins : bins.length = B * bshape.getLastD 0)
    (hout : out.length = data.length)
    (hsort : ∀ b, b < B → List.Sorted (· < ·)
      ((bins.drop (bshape.getLastD 0 * b)).take (bshape.getLastD 0)))
    (i : Nat) (hi : i < out.length) :
    (digitizeOpForward right (castOType ot) d data bins dshape bshape out).1
        = Except.ok () ∧
    (digitizeOpForward right (castOType ot) d data bins dshape bshape out).2.getD i 0
      = castOType ot
          (if right = true then
            ((bins.drop (bshape.getLastD 0 * (i / dshape.getLastD 0))).take
                (bshape.getLastD 0)).countP (fun x => decide (x < data.getD i d))
          else
            ((bins.drop (bshape.getLastD 0 * (i / dshape.getLastD 0))).take
                (bshape.getLastD 0)).countP (fun x => decide (x ≤ data.getD i d))) := by
  set L := bshape.getLastD 0 with hLdef
  set bs := dshape.getLastD 0 with hbsdef
  have hmono : checkMonotonic L bins d bins.length = true :=
    checkMonotonic_of_sorted B L bins d hbins hsort
  have hunfold : digitizeOpForward right (castOType ot) d data bins dshape bshape out
      = (Except.ok (), launchForward data bins d bs L right (castOType ot) out) := by
    simp only [digitizeOpForward]
    rw [if_pos hmono]
  rw [hunfold]
  refine ⟨rfl, ?_⟩
  have hbs : 0 < bs := by
    rcases Nat.eq_zero_or_pos bs with h0 | h
    · exfalso; rw [h0, Nat.mul_zero] at hdata; omega
    · exact h
  have hbB : i / bs < B := by
    have hiB : i < B * bs := by omega
    by_contra hc
    push_neg at hc
    have hm1 : bs * B ≤ bs * (i / bs) := Nat.mul_le_mul_left bs hc
    have hm2 : bs * (i / bs) + i % bs = i := Nat.div_add_mod i bs
    have hcm : bs * B = B * bs := by ring
    omega
  have hseg_sorted := hsort (i / bs) hbB
  rw [launchForward, launchN_getD_lt _ out out.length i hi hi 0]
  congr 1
  simp only [forwardKernelMap]
  by_cases hr : right = true
  · rw [if_pos hr, if_pos hr, lowerBound_eq_countP_of_sorted _ _ hseg_sorted]
  · rw [if_neg hr, if_neg hr, upperBound_eq_countP_of_sorted _ _ hseg_sorted]

/-- C1 witness: the forward count property at the boundary scenario
data = [2.0], bins = [1.0, 2.0, 3.0], right = false, output index 0. -/
theorem forward_writes_bucket_counts_witness :
    (digitizeOpForward false (castOType OType.int32) (0 : ℚ) [2] [1, 2, 3] [1] [3] [0]).1
        = Except.ok () ∧
    (digitizeOpForward false (castOType OType.int32) (0 : ℚ)
        [2] [1, 2, 3] [1] [3] [0]).2.getD 0 0
      = castOType OType.int32
          (if false = true then
            (([(1 : ℚ), 2, 3].drop (3 * (0 / 1))).take 3).countP
              (fun x => decide (x < ([(2 : ℚ)] : List ℚ).getD 0 0))
          else
            (([(1 : ℚ), 2, 3].drop (3 * (0 / 1))).take 3).countP
              (fun x => decide (x ≤ ([(2 : ℚ)] : List ℚ).getD 0 0))) :=
  forward_writes_bucket_counts false OType.int32 (0 : ℚ) [2] [1, 2, 3] [1] [3] [0] 1
    rfl rfl rfl (by decide) 0 (by decide)

/-- C2 witness: the validation-error characterization at the non-monotonic
input bins = [3.0, 2.0, 1.0]. -/
theorem forward_validation_error_iff_witness :
    (((digitizeOpForward true (castOType OType.int32) (0 : ℚ)
          [2] [3, 2, 1] [1] [3] [7]).1
        = Except.error "Bins vector is not strictly monotonic and increasing" ↔
      ∃ i, i + 1 < ([(3 : ℚ), 2, 1] : List ℚ).length ∧ (i + 1) % 3 ≠ 0 ∧
        ([(3 : ℚ), 2, 1] : List ℚ).getD (i + 1) 0 ≤ ([(3 : ℚ), 2, 1] : List ℚ).getD i 0)) ∧
    ((digitizeOpForward true (castOType OType.int32) (0 : ℚ)
          [2] [3, 2, 1] [1] [3] [7]).1
        = Except.error "Bins vector is not strictly monotonic and increasing" →
      (digitizeOpForward true (castOType OType.int32) (0 : ℚ)
          [2] [3, 2, 1] [1] [3] [7]).2 = [7]) :=
  forward_validation_error_iff true (castOType OType.int32) (0 : ℚ)
    [2] [3, 2, 1] [1] [3] [7] 1 rfl

end Digitize
